import Mathlib

/-!
Verification of the sherlockbench-client core protocol logic.

The Python sources are shallowly embedded:
* Python strings are sequences of Unicode code points, modelled as `List Nat`
  (`PyStr`); Python's string comparison is code-point lexicographic order.
* Python dicts are association lists; `dict[k]` / `dict.get(k, d)` are
  `List.lookup`.
* The side effects of the investigation loop (model-completion calls and
  oracle `test-function` calls) are reified as an explicit event trace.
-/

namespace Sherlock

/-! ### The investigation loop (`sherlockbench_anthropic/investigate.py`) -/

/-- A Python string: its sequence of Unicode code points. -/
abbrev PyStr := List Nat

/-- Python string comparison `a < b`: lexicographic by code point, a strict
proper-prefix is smaller. -/
def pyStrLt : PyStr → PyStr → Bool
  | _, [] => false
  | [], _ :: _ => true
  | a :: as, b :: bs => a < b || (a == b && pyStrLt as bs)

/-- Python string comparison `a <= b`, as used by `sorted` (which sorts with
respect to `<`; for a total strict order this is `!(b < a)`). -/
def pyStrLe (a b : PyStr) : Bool := !(pyStrLt b a)

/-- Python string order `a <= b` as a decidable relation. -/
def pyStrLeP (a b : PyStr) : Prop := pyStrLe a b = true

instance : DecidableRel pyStrLeP :=
  fun a b => inferInstanceAs (Decidable (pyStrLe a b = true))

/-- `sorted` applied to the keys of a Python dict: a comparison sort with
respect to Python string order. -/
def pySorted (keys : List PyStr) : List PyStr := List.insertionSort pyStrLeP keys

/-- `normalize_args` from `investigate.py`: converts a dict into the list of
its values, sorted by the alphabetical order of the keys
(`[input_dict[key] for key in sorted(input_dict.keys())]`). -/
def normalize_args {V : Type} (input_dict : List (PyStr × V)) : List V :=
  (pySorted (input_dict.map Prod.fst)).filterMap fun key => input_dict.lookup key

/-- The value `{"type": item}` that `list_to_map` associates to each key. -/
structure ParamSpec where
  type : String
deriving DecidableEq

/-- The keys `chr(97 + i)` generated by `list_to_map`: the one-character
strings "a", "b", "c", … . -/
def argKeys (n : Nat) : List PyStr := (List.range n).map fun i => [97 + i]

/-- `list_to_map` from `investigate.py`: assigns the keys "a", "b", "c", … to
the argument types and wraps each type as `{"type": item}`. -/
def list_to_map (input_list : List String) : List (PyStr × ParamSpec) :=
  (argKeys input_list.length).zip (input_list.map fun item => ⟨item⟩)

/-- A JSON-ish value, as handed around between model, client and oracle. -/
inductive JVal where
  | s (v : String)
  | n (v : Int)
  | b (v : Bool)
deriving DecidableEq

/-- A `ToolUseBlock` returned by the model: an invocation identifier plus the
model-chosen key→value argument mapping. -/
structure ToolCall where
  id : String
  input : List (PyStr × JVal)
deriving DecidableEq

/-- A content block of a transcript message (assistant or user). -/
inductive Block where
  | thinkingBlock (thinking signature : String)
  | redactedThinkingBlock
  | textBlock (text : String)
  | toolUseBlock (call : ToolCall)
  | toolResultBlock (tool_use_id : String) (content : JVal)
  | otherBlock
deriving DecidableEq

/-- A transcript message: a role tag plus content blocks. -/
structure Message where
  role : String
  content : List Block
deriving DecidableEq

/-- The observable side effects of the investigation loop, reified:
one `modelCall` per completion request, one `oracleTest` per `test-function`
POST (carrying the request body). -/
inductive Event where
  | modelCall
  | oracleTest (attempt_id : String) (args : List JVal)
deriving DecidableEq

/-- `parse_completion`: decomposes a completion's content into the first
thinking block, whether a redacted-thinking block is present, the first text
block, and the ordered list of all tool-use blocks.  Unrecognized content
kinds are ignored. -/
def parse_completion (content : List Block) :
    Option (String × String) × Bool × Option String × List ToolCall :=
  (content.findSome? fun blk =>
      match blk with
      | Block.thinkingBlock th sig => some (th, sig)
      | _ => none,
   (content.findSome? fun blk =>
      match blk with
      | Block.redactedThinkingBlock => some ()
      | _ => none).isSome,
   content.findSome? fun blk =>
      match blk with
      | Block.textBlock t => some t
      | _ => none,
   content.filterMap fun blk =>
      match blk with
      | Block.toolUseBlock call => some call
      | _ => none)

/-- The assistant-message content rebuilt from a parsed completion: thinking
dict (if any), redacted-thinking marker (if any), text (if any) — the code at
lines 87-98 and 120-131 of `investigate.py`. -/
def assistantContent (thinking : Option (String × String)) (redacted : Bool)
    (message : Option String) : List Block :=
  (match thinking with
   | some (th, sig) => [Block.thinkingBlock th sig]
   | none => []) ++
  (if redacted then [Block.redactedThinkingBlock] else []) ++
  (match message with
   | some t => [Block.textBlock t]
   | none => [])

/-- The sentinel used when the oracle's reply lacks the `output` field. -/
def errorSentinel : JVal := JVal.s "Error calling tool"

/-- `handle_tool_call`: normalizes the invocation arguments, POSTs them to the
oracle's `test-function` endpoint, reads the `output` field (substituting the
sentinel when missing) and builds the tool-result block.  The oracle POST is
returned as a reified event. -/
def handle_tool_call (postfn : String → List JVal → List (String × JVal))
    (attempt_id : String) (call : ToolCall) : Block × Event :=
  let args_norm := normalize_args call.input
  let response := postfn attempt_id args_norm
  let fnoutput := (response.lookup "output").getD errorSentinel
  (Block.toolResultBlock call.id fnoutput, Event.oracleTest attempt_id args_norm)

/-- The `for call in tool_calls:` loop of `investigate`: one
`handle_tool_call` per invocation, in order, incrementing the tool-call
counter once per invocation. -/
def processToolCalls (postfn : String → List JVal → List (String × JVal))
    (attempt_id : String) :
    List ToolCall → Nat → List Block × Nat × List Event
  | [], tool_call_counter => ([], tool_call_counter, [])
  | call :: rest, tool_call_counter =>
    let br := handle_tool_call postfn attempt_id call
    let rr := processToolCalls postfn attempt_id rest (tool_call_counter + 1)
    (br.1 :: rr.1, rr.2.1, br.2 :: rr.2.2)

/-- The single declared tool offered to the model. -/
structure ToolSchema where
  name : String
  description : String
  properties : List (PyStr × ParamSpec)
  required : List PyStr
deriving DecidableEq

/-- The `tools` list built by `investigate` from the argument specification. -/
def mysteryTools (arg_spec : List String) : List ToolSchema :=
  let mapped_args := list_to_map arg_spec
  [⟨"mystery_function", "Use this tool to test the mystery function.",
    mapped_args, mapped_args.map Prod.fst⟩]

/-- The `for count in range(0, msg_limit):` loop of `investigate`.  The fuel
argument is the remaining message budget; `Except.error ()` is the
`MsgLimitException` raised when the budget is exhausted.  Alongside the
result, the trace of completion requests and oracle calls is returned. -/
def investigateLoop (completionfn : List Message → List ToolSchema → List Block)
    (postfn : String → List JVal → List (String × JVal))
    (attempt_id : String) (tools : List ToolSchema) :
    Nat → List Message → Nat → Except Unit (List Message × Nat) × List Event
  | 0, _, _ => (Except.error (), [])
  | fuel + 1, messages, tool_call_counter =>
    let completion := completionfn messages tools
    let parsed := parse_completion completion
    let thinking := parsed.1
    let redacted_thinking := parsed.2.1
    let message := parsed.2.2.1
    let tool_calls := parsed.2.2.2
    if tool_calls.isEmpty then
      (Except.ok
        (messages ++
          [⟨"assistant", assistantContent thinking redacted_thinking message⟩],
         tool_call_counter),
       [Event.modelCall])
    else
      let content_blocks :=
        assistantContent thinking redacted_thinking message ++
          tool_calls.map Block.toolUseBlock
      let messages1 := messages ++ [⟨"assistant", content_blocks⟩]
      let pr := processToolCalls postfn attempt_id tool_calls tool_call_counter
      let messages2 := messages1 ++ [⟨"user", pr.1⟩]
      let rest :=
        investigateLoop completionfn postfn attempt_id tools fuel messages2 pr.2.1
      (rest.1, Event.modelCall :: (pr.2.2 ++ rest.2))

/-- `investigate`: builds the tool schema from the argument specification and
runs the loop with the configured `msg-limit` as budget, starting from a
zero tool-call counter. -/
def investigate (msg_limit : Nat)
    (completionfn : List Message → List ToolSchema → List Block)
    (postfn : String → List JVal → List (String × JVal))
    (attempt_id : String) (arg_spec : List String) (messages : List Message) :
    Except Unit (List Message × Nat) × List Event :=
  investigateLoop completionfn postfn attempt_id (mysteryTools arg_spec)
    msg_limit messages 0

/-- Number of completion requests in a trace. -/
def modelCallCount : List Event → Nat
  | [] => 0
  | Event.modelCall :: rest => modelCallCount rest + 1
  | Event.oracleTest _ _ :: rest => modelCallCount rest

/-! ### The verification loop (`sherlockbench_anthropic/verify.py`) -/

/-- Python whitespace, as stripped by `str.strip()`: the code points on which
CPython's `str.isspace()` is true — tab through carriage return (9-13), the
file/group/record/unit separators (28-31), space (32), next line (133),
no-break space (160), ogham space mark (5760), the en/em spaces
(8192-8202), line and paragraph separators (8232, 8233), narrow no-break
space (8239), medium mathematical space (8287) and ideographic space
(12288). -/
def isPyWs (c : Nat) : Bool :=
  (9 ≤ c && c ≤ 13) || (28 ≤ c && c ≤ 31) || c == 32 || c == 133 ||
  c == 160 || c == 5760 || (8192 ≤ c && c ≤ 8202) || c == 8232 ||
  c == 8233 || c == 8239 || c == 8287 || c == 12288

/-- `str.lstrip()`. -/
def pyLstrip (s : PyStr) : PyStr := s.dropWhile isPyWs

/-- `str.rstrip()`. -/
def pyRstrip (s : PyStr) : PyStr := (s.reverse.dropWhile isPyWs).reverse

/-- `str.strip()`. -/
def pyStrip (s : PyStr) : PyStr := pyRstrip (pyLstrip s)

/-- `s.startswith(p)`. -/
def pyStartsWith : PyStr → PyStr → Bool
  | _, [] => true
  | [], _ :: _ => false
  | a :: s, b :: p => a == b && pyStartsWith s p

/-- `s.endswith(p)`. -/
def pyEndsWith (s p : PyStr) : Bool := pyStartsWith s.reverse p.reverse

/-- The code points of the opening fence marker stripped by `verify.py`,
`"..json"` preceded by three backticks (7 characters). -/
def fenceJson : PyStr := [96, 96, 96, 106, 115, 111, 110]

/-- The code points of the closing fence marker, three backticks. -/
def fenceEnd : PyStr := [96, 96, 96]

/-- The fence-stripping step of `verify.py` (lines 33-37): if the stripped
response starts with the 7-character opening marker, drop it and re-strip; if
the stripped result ends with the 3-character closing marker, drop it and
re-strip.  `s[:-3]` is `take (length - 3)`; the `cleaned_response and …`
truthiness guard is the non-emptiness test. -/
def cleanResponse (response : PyStr) : PyStr :=
  let c1 :=
    if !response.isEmpty && pyStartsWith (pyStrip response) fenceJson then
      pyStrip ((pyStrip response).drop 7)
    else response
  if !c1.isEmpty && pyEndsWith (pyStrip c1) fenceEnd then
    pyStrip ((pyStrip c1).take ((pyStrip c1).length - 3))
  else c1

/-- A response wrapped in a fenced code block: the opening marker, a newline,
the content, a newline, the closing marker. -/
def pyWrap (r : PyStr) : PyStr := fenceJson ++ ([10] ++ (r ++ ([10] ++ fenceEnd)))

/-- Python's `sub in s` on strings: `sub` occurs as a contiguous substring of
`s` (the empty string occurs in everything). -/
def pyIn (sub : PyStr) : PyStr → Bool
  | [] => sub.isEmpty
  | c :: rest => pyStartsWith (c :: rest) sub || pyIn sub rest

/-- The code points of "wrong". -/
def wrongCodes : PyStr := [119, 114, 111, 110, 103]

/-- The code points of "done". -/
def doneCodes : PyStr := [100, 111, 110, 101]

/-- One verification case as the oracle serves it: the input vector, the
declared output type, and the verdict `attempt-verification` returns when the
prediction for this case is submitted. -/
structure VCase where
  verification : List JVal
  output_type : String
  status : PyStr
deriving DecidableEq

/-- The initial `thoughts = ""` / `expected_output = ""` values of
`verify.py` (lines 23-24). -/
def emptyJStr : JVal := JVal.s ""

/-- The `while attempts < 3:` completion-and-parse retry loop of `verify.py`.
`parse` is `json.loads` + `destructure` on the cleaned response (`none` is a
`json.JSONDecodeError`); `completions i` is the text of the `i`-th completion
request of this verification run.  Returns the parsed
(thoughts, expected_output) pair — or the initial empty values when all
retries fail — together with the next completion index. -/
def parseLoop (parse : PyStr → Option (JVal × JVal)) (completions : Nat → PyStr) :
    Nat → Nat → (JVal × JVal) × Nat
  | 0, i => ((emptyJStr, emptyJStr), i)
  | fuel + 1, i =>
    match parse (cleanResponse (completions i)) with
    | some tv => (tv, i + 1)
    | none => parseLoop parse completions fuel (i + 1)

/-- The verification loop of `verify.py`: for each case served by
`next-verification`, obtain a structured prediction (with up to 3 parse
retries), submit it, and act on the verdict: a verdict `in ("wrong")` returns
`False` at once, a verdict `in ("done")` stops with `True`, anything else
continues.  Returns the result and the list of submitted predictions. -/
def verify (parse : PyStr → Option (JVal × JVal)) (completions : Nat → PyStr) :
    List VCase → Nat → Bool × List JVal
  | [], _ => (true, [])
  | vcase :: rest, i =>
    let parsed := parseLoop parse completions 3 i
    let expected_output := parsed.1.2
    let vstatus := vcase.status
    if pyIn vstatus wrongCodes then
      (false, [expected_output])
    else if pyIn vstatus doneCodes then
      (true, [expected_output])
    else
      let cont := verify parse completions rest parsed.2
      (cont.1, expected_output :: cont.2)

/-! ### Run resumption (`sherlockbench_client/run_utils.py`) -/

/-- An attempt record as stored in the failure snapshot: a Python dict with
string fields (we only ever read `"attempt-id"`). -/
abbrev PyDict := List (String × String)

/-- The `--resume` mode. -/
inductive ResumeMode where
  | skip
  | retry
deriving DecidableEq

/-- Python truthiness of `failed_attempt.get("attempt-id")`: present and
non-empty. -/
def truthyStrOpt : Option String → Bool
  | none => false
  | some s => !s.isEmpty

/-- Python truthiness of the `failed_attempt` dict: present and non-empty. -/
def truthyDictOpt : Option PyDict → Bool
  | none => false
  | some d => !d.isEmpty

/-- The completed-attempt filter of `start_run` (lines 152-155): keep an
attempt iff `"attempt-id" in attempt and attempt["attempt-id"] not in
completed_attempts`. -/
def attemptFilter (completed : List String) (a : PyDict) : Bool :=
  match a.lookup "attempt-id" with
  | some id => !(completed.contains id)
  | none => false

/-- `attempts = [a for a in all_attempts if …]` (lines 152-155). -/
def rebuildAttempts (all_attempts : List PyDict) (completed : List String) :
    List PyDict :=
  all_attempts.filter (attemptFilter completed)

/-- The `skip` filter of `start_run` (line 159): drop every attempt whose
`attempt-id` equals the failed attempt's (`.get` equality on `Option`). -/
def skipFilter (failed_attempt : PyDict) (attempts : List PyDict) : List PyDict :=
  attempts.filter fun a =>
    !(a.lookup "attempt-id" == failed_attempt.lookup "attempt-id")

/-- The resume path of `start_run` (lines 105-162), given the snapshot data:
with `retry` and a truthy in-flight attempt id, a failed `reset-attempt` call
exits with code 1; an empty snapshot attempt list exits with code 1;
otherwise the remaining-attempts list is rebuilt by filtering completed
attempts out, and with `skip` the in-flight attempt is additionally
removed. -/
def resume_rebuild (mode : ResumeMode) (failed_attempt : Option PyDict)
    (reset_success : Bool) (all_attempts : List PyDict)
    (completed : List String) : Except Nat (List PyDict) :=
  let attempt_id := failed_attempt.bind fun fa => fa.lookup "attempt-id"
  if truthyDictOpt failed_attempt && (mode == ResumeMode.retry) &&
      truthyStrOpt attempt_id && !reset_success then
    Except.error 1
  else if all_attempts.isEmpty then
    Except.error 1
  else
    let attempts := rebuildAttempts all_attempts completed
    let attempts :=
      if mode == ResumeMode.skip && truthyDictOpt failed_attempt then
        match failed_attempt with
        | some fa => skipFilter fa attempts
        | none => attempts
      else attempts
    Except.ok attempts

/-- The fnoutput that `handle_tool_call` extracts for a given invocation. -/
def fnoutputFor (postfn : String → List JVal → List (String × JVal))
    (attempt_id : String) (call : ToolCall) : JVal :=
  ((postfn attempt_id (normalize_args call.input)).lookup "output").getD
    errorSentinel

/-- A sample whitespace-insensitive parser used in witnesses: accepts exactly
the text "\x7b\x7d" (an empty JSON object) up to surrounding whitespace. -/
def demoParse (s : PyStr) : Option (JVal × JVal) :=
  if pyStrip s == [123, 125] then some (emptyJStr, emptyJStr) else none

/-- The code points of "correct". -/
def correctCodes : PyStr := [99, 111, 114, 114, 101, 99, 116]

/-! ### Helper lemmas -/

theorem pyStrLt_irrefl (a : PyStr) : pyStrLt a a = false := by
  induction a with
  | nil => rfl
  | cons c cs ih => simp [pyStrLt, ih]

theorem pyStrLt_asymm {a b : PyStr} (h : pyStrLt a b = true) :
    pyStrLt b a = false := by
  induction a generalizing b with
  | nil => cases b with
    | nil => simp [pyStrLt] at h
    | cons y ys => rfl
  | cons x xs ih =>
    cases b with
    | nil => simp [pyStrLt] at h
    | cons y ys =>
      simp only [pyStrLt, Bool.or_eq_true, Bool.and_eq_true, decide_eq_true_eq,
        beq_iff_eq] at h
      simp only [pyStrLt, Bool.or_eq_false_iff, Bool.and_eq_false_iff,
        decide_eq_false_iff_not, beq_eq_false_iff_ne, ne_eq]
      rcases h with h | ⟨rfl, h⟩
      · exact ⟨by omega, Or.inl (by omega)⟩
      · exact ⟨by omega, Or.inr (ih h)⟩

theorem pyStrLt_trans {a b c : PyStr} (hab : pyStrLt a b = true)
    (hbc : pyStrLt b c = true) : pyStrLt a c = true := by
  induction a generalizing b c with
  | nil =>
    cases c with
    | nil => cases b <;> simp [pyStrLt] at hab hbc
    | cons z zs => rfl
  | cons x xs ih =>
    cases b with
    | nil => simp [pyStrLt] at hab
    | cons y ys =>
      cases c with
      | nil => simp [pyStrLt] at hbc
      | cons z zs =>
        simp only [pyStrLt, Bool.or_eq_true, Bool.and_eq_true, decide_eq_true_eq,
          beq_iff_eq] at hab hbc ⊢
        rcases hab with hab | ⟨rfl, hab⟩ <;> rcases hbc with hbc | ⟨rfl, hbc⟩
        · exact Or.inl (by omega)
        · exact Or.inl hab
        · exact Or.inl hbc
        · exact Or.inr ⟨rfl, ih hab hbc⟩

theorem pyStrLt_conn {a b : PyStr} (hab : pyStrLt a b = false)
    (hba : pyStrLt b a = false) : a = b := by
  induction a generalizing b with
  | nil => cases b with
    | nil => rfl
    | cons y ys => simp [pyStrLt] at hab
  | cons x xs ih =>
    cases b with
    | nil => simp [pyStrLt] at hba
    | cons y ys =>
      simp only [pyStrLt, Bool.or_eq_false_iff, Bool.and_eq_false_iff,
        decide_eq_false_iff_not, beq_eq_false_iff_ne, ne_eq] at hab hba
      have hxy : x = y := by omega
      subst hxy
      rcases hab.2 with h | h
      · exact absurd rfl h
      · rcases hba.2 with h' | h'
        · exact absurd rfl h'
        · exact congrArg (x :: ·) (ih h h')

theorem pyStrLe_trans : ∀ a b c : PyStr,
    pyStrLe a b = true → pyStrLe b c = true → pyStrLe a c = true := by
  intro a b c hab hbc
  simp only [pyStrLe, Bool.not_eq_true'] at hab hbc ⊢
  rcases Bool.eq_false_or_eq_true (pyStrLt c a) with hca | hca
  · exfalso
    rcases Bool.eq_false_or_eq_true (pyStrLt b c) with hb | hb
    · have hlt : pyStrLt b a = true := pyStrLt_trans hb hca
      exact absurd hlt (by simp [hab])
    · have hbceq : b = c := pyStrLt_conn hb hbc
      subst hbceq
      exact absurd hca (by simp [hab])
  · exact hca

theorem pyStrLe_total (a b : PyStr) : (pyStrLe a b || pyStrLe b a) = true := by
  simp only [pyStrLe, Bool.or_eq_true, Bool.not_eq_true']
  rcases Bool.eq_false_or_eq_true (pyStrLt b a) with h | h
  · exact Or.inr (pyStrLt_asymm h)
  · exact Or.inl h

theorem pyStrLe_antisymm {a b : PyStr} (hab : pyStrLe a b = true)
    (hba : pyStrLe b a = true) : a = b := by
  simp only [pyStrLe, Bool.not_eq_true'] at hab hba
  exact pyStrLt_conn hba hab

theorem pyStrLt_le {a b : PyStr} (h : pyStrLt a b = true) : pyStrLe a b = true := by
  simp only [pyStrLe, Bool.not_eq_true']
  exact pyStrLt_asymm h

theorem argKeys_length (n : Nat) : (argKeys n).length = n := by
  simp [argKeys]

theorem argKeys_nodup (n : Nat) : (argKeys n).Nodup := by
  refine List.Nodup.map ?_ (List.nodup_range n)
  intro i j h
  simpa using h

theorem argKeys_pairwise_lt (n : Nat) :
    (argKeys n).Pairwise fun a b => pyStrLt a b = true := by
  refine (List.pairwise_map).2 ?_
  refine (List.pairwise_lt_range n).imp ?_
  intro i j hij
  simp [pyStrLt, hij]

theorem lookup_eq_some_of_mem_of_nodupKeys {V : Type} {l : List (PyStr × V)}
    {k : PyStr} {v : V} (hmem : (k, v) ∈ l) (hnd : (l.map Prod.fst).Nodup) :
    l.lookup k = some v := by
  induction l with
  | nil => cases hmem
  | cons p rest ih =>
    obtain ⟨k', v'⟩ := p
    rw [List.map_cons, List.nodup_cons] at hnd
    rcases List.mem_cons.1 hmem with h | h
    · cases h
      simp [List.lookup_cons]
    · have hk : (k == k') = false := by
        refine beq_eq_false_iff_ne.2 ?_
        rintro rfl
        exact hnd.1 (List.mem_map.2 ⟨(k, v), h, rfl⟩)
      rw [List.lookup_cons]
      simp only [hk]
      exact ih h hnd.2

theorem filterMap_lookup_of_zip {V : Type} {m : List (PyStr × V)}
    (ks : List PyStr) (vs : List V) (hlen : ks.length = vs.length)
    (hlook : ∀ k v, (k, v) ∈ ks.zip vs → m.lookup k = some v) :
    ks.filterMap (fun key => m.lookup key) = vs := by
  induction ks generalizing vs with
  | nil => cases vs with
    | nil => rfl
    | cons v vs => simp at hlen
  | cons k ks ih =>
    cases vs with
    | nil => simp at hlen
    | cons v vs =>
      have hk : m.lookup k = some v := hlook k v (by simp [List.zip_cons_cons])
      have hrest : ks.filterMap (fun key => m.lookup key) = vs := by
        refine ih vs (by simpa using hlen) ?_
        intro k' v' hmem
        exact hlook k' v' (by simp [List.zip_cons_cons, hmem])
      simp [List.filterMap_cons, hk, hrest]

theorem pySorted_eq_of_perm_of_sorted {l sortedl : List PyStr}
    (hperm : l.Perm sortedl)
    (hsorted : sortedl.Pairwise fun a b => pyStrLt a b = true) :
    pySorted l = sortedl := by
  letI : IsAntisymm PyStr pyStrLeP := ⟨fun _ _ h h' => pyStrLe_antisymm h h'⟩
  letI : IsTotal PyStr pyStrLeP :=
    ⟨fun a b => by
      rcases Bool.or_eq_true .. ▸ pyStrLe_total a b with h | h
      · exact Or.inl h
      · exact Or.inr h⟩
  letI : IsTrans PyStr pyStrLeP := ⟨fun a b c => pyStrLe_trans a b c⟩
  have hs1 : List.Sorted pyStrLeP (pySorted l) :=
    List.sorted_insertionSort pyStrLeP l
  have hs2 : List.Sorted pyStrLeP sortedl :=
    hsorted.imp fun h => pyStrLt_le h
  exact List.eq_of_perm_of_sorted
    ((List.perm_insertionSort pyStrLeP l).trans hperm) hs1 hs2

theorem normalize_args_perm_zip {V : Type} (vs : List V) (m : List (PyStr × V))
    (hperm : m.Perm ((argKeys vs.length).zip vs)) :
    normalize_args m = vs := by
  have hlen : (argKeys vs.length).length = vs.length := argKeys_length _
  have hkeys : ((argKeys vs.length).zip vs).map Prod.fst = argKeys vs.length :=
    List.map_fst_zip _ _ (le_of_eq hlen)
  have hpermkeys : (m.map Prod.fst).Perm (argKeys vs.length) := by
    simpa [hkeys] using hperm.map Prod.fst
  have hps : pySorted (m.map Prod.fst) = argKeys vs.length :=
    pySorted_eq_of_perm_of_sorted hpermkeys (argKeys_pairwise_lt vs.length)
  have hnodupm : (m.map Prod.fst).Nodup :=
    hpermkeys.nodup_iff.2 (argKeys_nodup _)
  unfold normalize_args
  rw [hps]
  refine filterMap_lookup_of_zip _ _ hlen ?_
  intro k v hmem
  exact lookup_eq_some_of_mem_of_nodupKeys (hperm.mem_iff.2 hmem) hnodupm

theorem pyLstrip_cons_not_ws {a : Nat} (s : PyStr) (h : isPyWs a = false) :
    pyLstrip (a :: s) = a :: s := by
  simp [pyLstrip, List.dropWhile_cons, h]

theorem pyLstrip_cons_ws {a : Nat} (s : PyStr) (h : isPyWs a = true) :
    pyLstrip (a :: s) = pyLstrip s := by
  simp [pyLstrip, List.dropWhile_cons, h]

theorem pyRstrip_concat_not_ws (s : PyStr) {b : Nat} (h : isPyWs b = false) :
    pyRstrip (s ++ [b]) = s ++ [b] := by
  simp [pyRstrip, List.reverse_append, List.dropWhile_cons, h]

theorem pyRstrip_concat_ws (s : PyStr) {b : Nat} (h : isPyWs b = true) :
    pyRstrip (s ++ [b]) = pyRstrip s := by
  simp [pyRstrip, List.reverse_append, List.dropWhile_cons, h]

theorem dropWhile_ws_head_false {s : PyStr} {a : Nat} {t : PyStr}
    (h : s.dropWhile isPyWs = a :: t) : isPyWs a = false := by
  induction s with
  | nil => simp [List.dropWhile] at h
  | cons b bs ih =>
    rw [List.dropWhile_cons] at h
    by_cases hb : isPyWs b = true
    · rw [if_pos hb] at h
      exact ih h
    · rw [if_neg hb] at h
      cases h
      exact Bool.not_eq_true _ ▸ hb

theorem pyLstrip_head_not_ws {s : PyStr} {a : Nat} {t : PyStr}
    (h : pyLstrip s = a :: t) : isPyWs a = false :=
  dropWhile_ws_head_false h

theorem pyStartsWith_append (p t : PyStr) : pyStartsWith (p ++ t) p = true := by
  induction p with
  | nil =>
    rw [List.nil_append]
    cases t <;> rfl
  | cons a as ih => simp [pyStartsWith, ih]

theorem pyEndsWith_append (t p : PyStr) : pyEndsWith (t ++ p) p = true := by
  simp [pyEndsWith, List.reverse_append, pyStartsWith_append]

theorem dropWhile_ws_idem (s : PyStr) :
    (s.dropWhile isPyWs).dropWhile isPyWs = s.dropWhile isPyWs := by
  cases h : s.dropWhile isPyWs with
  | nil => rfl
  | cons a t =>
    rw [List.dropWhile_cons, if_neg]
    rw [dropWhile_ws_head_false h]
    exact Bool.false_ne_true

theorem pyLstrip_idem (s : PyStr) : pyLstrip (pyLstrip s) = pyLstrip s :=
  dropWhile_ws_idem s

theorem pyRstrip_idem (s : PyStr) : pyRstrip (pyRstrip s) = pyRstrip s := by
  simp only [pyRstrip, List.reverse_reverse]
  rw [dropWhile_ws_idem]

theorem pyRstrip_cons_shape (a : Nat) (s : PyStr) :
    pyRstrip (a :: s) = [] ∨ ∃ t, pyRstrip (a :: s) = a :: t := by
  simp only [pyRstrip, List.reverse_cons, List.dropWhile_append]
  by_cases h : (s.reverse.dropWhile isPyWs).isEmpty = true
  · rw [if_pos h]
    by_cases ha : isPyWs a = true
    · left
      simp [List.dropWhile_cons, ha]
    · right
      refine ⟨[], ?_⟩
      simp [List.dropWhile_cons, ha]
  · rw [if_neg h]
    right
    exact ⟨(s.reverse.dropWhile isPyWs).reverse, by simp [List.reverse_append]⟩

theorem pyLstrip_pyRstrip_pyLstrip (s : PyStr) :
    pyLstrip (pyRstrip (pyLstrip s)) = pyRstrip (pyLstrip s) := by
  cases hl : pyLstrip s with
  | nil => rfl
  | cons a t =>
    rcases pyRstrip_cons_shape a t with h | ⟨u, h⟩
    · rw [h]; rfl
    · rw [h]
      exact pyLstrip_cons_not_ws u (pyLstrip_head_not_ws hl)

theorem pyStrip_idem (s : PyStr) : pyStrip (pyStrip s) = pyStrip s := by
  simp only [pyStrip]
  rw [pyLstrip_pyRstrip_pyLstrip, pyRstrip_idem]

theorem pyLstrip_pyWrap (r : PyStr) : pyLstrip (pyWrap r) = pyWrap r := by
  simp only [pyWrap, fenceJson, List.cons_append, List.nil_append]
  exact pyLstrip_cons_not_ws _ (by decide)

theorem pyRstrip_pyWrap (r : PyStr) : pyRstrip (pyWrap r) = pyWrap r := by
  have h : pyWrap r =
      (fenceJson ++ ([10] ++ (r ++ ([10] ++ [96, 96])))) ++ [96] := by
    simp [pyWrap, fenceEnd]
  rw [h, pyRstrip_concat_not_ws _ (by decide)]

theorem pyStrip_pyWrap (r : PyStr) : pyStrip (pyWrap r) = pyWrap r := by
  rw [pyStrip, pyLstrip_pyWrap, pyRstrip_pyWrap]

theorem pyWrap_startsWith_fence (r : PyStr) :
    pyStartsWith (pyWrap r) fenceJson = true :=
  pyStartsWith_append fenceJson ([10] ++ (r ++ ([10] ++ fenceEnd)))

theorem pyWrap_drop7 (r : PyStr) :
    (pyWrap r).drop 7 = 10 :: (r ++ ([10] ++ fenceEnd)) := by
  have h7 : (7 : Nat) = fenceJson.length := rfl
  rw [pyWrap, h7, List.drop_left]
  rfl

theorem pyWrap_isEmpty (r : PyStr) : (pyWrap r).isEmpty = false := by
  simp [pyWrap, fenceJson]

theorem pyLstrip_fence_body (r : PyStr) :
    pyLstrip (10 :: (r ++ ([10] ++ fenceEnd))) =
      if (pyLstrip r).isEmpty then fenceEnd
      else pyLstrip r ++ ([10] ++ fenceEnd) := by
  rw [pyLstrip_cons_ws _ (by decide)]
  unfold pyLstrip
  rw [List.dropWhile_append]
  rw [show List.dropWhile isPyWs ([10] ++ fenceEnd) = fenceEnd from by decide]

theorem pyStrip_fence_body_of_empty {r : PyStr} (h : pyLstrip r = []) :
    pyStrip (10 :: (r ++ ([10] ++ fenceEnd))) = fenceEnd := by
  rw [pyStrip, pyLstrip_fence_body, h]
  simp only [List.isEmpty_nil, if_true]
  decide

theorem pyStrip_fence_body_of_ne {r : PyStr} {a : Nat} {t : PyStr}
    (h : pyLstrip r = a :: t) :
    pyStrip (10 :: (r ++ ([10] ++ fenceEnd))) =
      pyLstrip r ++ ([10] ++ fenceEnd) := by
  rw [pyStrip, pyLstrip_fence_body, h]
  simp only [List.isEmpty_cons, Bool.false_eq_true, if_false]
  rw [show ((a :: t) ++ ([10] ++ fenceEnd) : PyStr) =
        ((a :: t) ++ ([10] ++ [96, 96])) ++ [96] from by simp [fenceEnd]]
  rw [pyRstrip_concat_not_ws _ (by decide)]

theorem cleanResponse_pyWrap (r : PyStr) : cleanResponse (pyWrap r) = pyStrip r := by
  simp only [cleanResponse, pyWrap_isEmpty, pyStrip_pyWrap, pyWrap_startsWith_fence,
    pyWrap_drop7, Bool.not_false, Bool.true_and, if_true]
  cases hl : pyLstrip r with
  | nil =>
    rw [pyStrip_fence_body_of_empty hl]
    have hr : pyStrip r = [] := by
      rw [pyStrip, hl]
      rfl
    rw [hr]
    decide
  | cons a t =>
    have hna : isPyWs a = false := pyLstrip_head_not_ws hl
    rw [pyStrip_fence_body_of_ne hl, hl]
    have hstripc1 : pyStrip ((a :: t) ++ ([10] ++ fenceEnd)) =
        (a :: t) ++ ([10] ++ fenceEnd) := by
      rw [pyStrip, List.cons_append, pyLstrip_cons_not_ws _ hna]
      rw [show (a :: (t ++ ([10] ++ fenceEnd)) : PyStr) =
            (a :: (t ++ ([10] ++ [96, 96]))) ++ [96] from by simp [fenceEnd]]
      rw [pyRstrip_concat_not_ws _ (by decide)]
    have hends : pyEndsWith (pyStrip ((a :: t) ++ ([10] ++ fenceEnd))) fenceEnd
        = true := by
      rw [hstripc1]
      rw [show ((a :: t) ++ ([10] ++ fenceEnd) : PyStr) =
            ((a :: t) ++ [10]) ++ fenceEnd from by simp]
      exact pyEndsWith_append _ _
    have htake : (pyStrip ((a :: t) ++ ([10] ++ fenceEnd))).take
        ((pyStrip ((a :: t) ++ ([10] ++ fenceEnd))).length - 3) =
        (a :: t) ++ [10] := by
      rw [hstripc1]
      rw [show ((a :: t) ++ ([10] ++ fenceEnd) : PyStr) =
            ((a :: t) ++ [10]) ++ fenceEnd from by simp]
      rw [List.length_append]
      rw [show ((a :: t) ++ [10] : PyStr).length + fenceEnd.length - 3 =
            ((a :: t) ++ [10] : PyStr).length from by simp [fenceEnd]]
      rw [List.take_left]
    rw [hends, htake]
    have hc1e : ((a :: t) ++ ([10] ++ fenceEnd) : PyStr).isEmpty = false := by simp
    rw [hc1e]
    simp only [Bool.not_false, Bool.true_and, if_true]
    have hr : pyStrip r = pyRstrip (a :: t) := by rw [pyStrip, hl]
    rw [hr]
    rw [pyStrip, List.cons_append, pyLstrip_cons_not_ws _ hna]
    rw [show (a :: (t ++ [10]) : PyStr) = (a :: t) ++ [10] from by simp]
    rw [pyRstrip_concat_ws _ (by decide)]

theorem cleanResponse_no_fence {r : PyStr}
    (h1 : pyStartsWith (pyStrip r) fenceJson = false)
    (h2 : pyEndsWith (pyStrip r) fenceEnd = false) :
    cleanResponse r = r := by
  simp [cleanResponse, h1, h2]

theorem processToolCalls_eq (postfn : String → List JVal → List (String × JVal))
    (attempt_id : String) (calls : List ToolCall) (counter : Nat) :
    processToolCalls postfn attempt_id calls counter =
      (calls.map fun call =>
         Block.toolResultBlock call.id (fnoutputFor postfn attempt_id call),
       counter + calls.length,
       calls.map fun call =>
         Event.oracleTest attempt_id (normalize_args call.input)) := by
  induction calls generalizing counter with
  | nil => simp [processToolCalls]
  | cons call rest ih =>
    simp only [processToolCalls, ih, handle_tool_call, fnoutputFor, List.map_cons,
      List.length_cons, Prod.mk.injEq, true_and, and_true]
    omega

theorem modelCallCount_append (a b : List Event) :
    modelCallCount (a ++ b) = modelCallCount a + modelCallCount b := by
  induction a with
  | nil => simp [modelCallCount]
  | cons e rest ih =>
    cases e with
    | modelCall => simp [modelCallCount, ih]; omega
    | oracleTest aid args => simp [modelCallCount, ih]

theorem modelCallCount_oracleTests (attempt_id : String) (calls : List ToolCall) :
    modelCallCount (calls.map fun call =>
      Event.oracleTest attempt_id (normalize_args call.input)) = 0 := by
  induction calls with
  | nil => rfl
  | cons c cs ih =>
    rw [List.map_cons]
    rw [show modelCallCount
        (Event.oracleTest attempt_id (normalize_args c.input) ::
          cs.map fun call =>
            Event.oracleTest attempt_id (normalize_args call.input)) =
        modelCallCount (cs.map fun call =>
          Event.oracleTest attempt_id (normalize_args call.input)) from rfl]
    exact ih

theorem investigateLoop_no_tool_step
    (completionfn : List Message → List ToolSchema → List Block)
    (postfn : String → List JVal → List (String × JVal))
    (attempt_id : String) (tools : List ToolSchema) (fuel : Nat)
    (messages : List Message) (counter : Nat)
    (h : (parse_completion (completionfn messages tools)).2.2.2 = []) :
    investigateLoop completionfn postfn attempt_id tools (fuel + 1)
        messages counter =
      (Except.ok (messages ++
          [⟨"assistant",
            assistantContent (parse_completion (completionfn messages tools)).1
              (parse_completion (completionfn messages tools)).2.1
              (parse_completion (completionfn messages tools)).2.2.1⟩],
         counter),
       [Event.modelCall]) := by
  simp [investigateLoop, h]

theorem modelCallCount_cons_model (l : List Event) :
    modelCallCount (Event.modelCall :: l) = modelCallCount l + 1 := rfl

theorem investigateLoop_all_tools
    (completionfn : List Message → List ToolSchema → List Block)
    (postfn : String → List JVal → List (String × JVal))
    (attempt_id : String) (tools : List ToolSchema)
    (h : ∀ messages, (parse_completion (completionfn messages tools)).2.2.2 ≠ []) :
    ∀ (fuel : Nat) (messages : List Message) (counter : Nat),
      (investigateLoop completionfn postfn attempt_id tools fuel
          messages counter).1 = Except.error ()
      ∧ modelCallCount (investigateLoop completionfn postfn attempt_id tools fuel
          messages counter).2 = fuel := by
  intro fuel
  induction fuel with
  | zero => exact fun _ _ => ⟨rfl, rfl⟩
  | succ n ih =>
    intro messages counter
    have hne : (parse_completion (completionfn messages tools)).2.2.2.isEmpty
        = false := by
      cases hc : (parse_completion (completionfn messages tools)).2.2.2 with
      | nil => exact absurd hc (h messages)
      | cons x xs => rfl
    constructor
    · simp only [investigateLoop, hne, Bool.false_eq_true, if_false]
      exact (ih _ _).1
    · simp only [investigateLoop, hne, Bool.false_eq_true, if_false]
      rw [modelCallCount_cons_model, modelCallCount_append]
      rw [processToolCalls_eq]
      rw [modelCallCount_oracleTests]
      rw [(ih _ _).2]
      omega

theorem verify_cons_wrong (parse : PyStr → Option (JVal × JVal))
    (completions : Nat → PyStr) (vcase : VCase) (rest : List VCase) (i : Nat)
    (h : pyIn vcase.status wrongCodes = true) :
    verify parse completions (vcase :: rest) i =
      (false, [(parseLoop parse completions 3 i).1.2]) := by
  simp [verify, h]

theorem verify_cons_done (parse : PyStr → Option (JVal × JVal))
    (completions : Nat → PyStr) (vcase : VCase) (rest : List VCase) (i : Nat)
    (hw : pyIn vcase.status wrongCodes = false)
    (hd : pyIn vcase.status doneCodes = true) :
    verify parse completions (vcase :: rest) i =
      (true, [(parseLoop parse completions 3 i).1.2]) := by
  simp [verify, hw, hd]

theorem verify_cons_continue (parse : PyStr → Option (JVal × JVal))
    (completions : Nat → PyStr) (vcase : VCase) (rest : List VCase) (i : Nat)
    (hw : pyIn vcase.status wrongCodes = false)
    (hd : pyIn vcase.status doneCodes = false) :
    verify parse completions (vcase :: rest) i =
      ((verify parse completions rest (parseLoop parse completions 3 i).2).1,
       (parseLoop parse completions 3 i).1.2 ::
         (verify parse completions rest (parseLoop parse completions 3 i).2).2) := by
  simp [verify, hw, hd]

theorem verify_skip_prefix (parse : PyStr → Option (JVal × JVal))
    (completions : Nat → PyStr) :
    ∀ (pre : List VCase),
      (∀ p ∈ pre, pyIn p.status wrongCodes = false ∧
        pyIn p.status doneCodes = false) →
      ∀ (cs : List VCase) (i : Nat),
      ∃ j, (verify parse completions (pre ++ cs) i).1 =
             (verify parse completions cs j).1
        ∧ (verify parse completions (pre ++ cs) i).2.length =
             pre.length + (verify parse completions cs j).2.length := by
  intro pre
  induction pre with
  | nil =>
    intro _ cs i
    exact ⟨i, rfl, by simp⟩
  | cons p ps ih =>
    intro hpre cs i
    have hp := hpre p (by simp)
    obtain ⟨j, h1, h2⟩ := ih (fun q hq => hpre q (by simp [hq])) cs
      (parseLoop parse completions 3 i).2
    rw [List.cons_append,
      verify_cons_continue parse completions p (ps ++ cs) i hp.1 hp.2]
    refine ⟨j, h1, ?_⟩
    simp only [List.length_cons, h2, List.length_cons]
    omega

theorem parseLoop_succ_none (parse : PyStr → Option (JVal × JVal))
    (completions : Nat → PyStr) (fuel i : Nat)
    (h : parse (cleanResponse (completions i)) = none) :
    parseLoop parse completions (fuel + 1) i =
      parseLoop parse completions fuel (i + 1) := by
  simp [parseLoop, h]

theorem attemptFilter_some {completed : List String} {a : PyDict} {id : String}
    (h : a.lookup "attempt-id" = some id) :
    attemptFilter completed a = !completed.contains id := by
  unfold attemptFilter
  rw [h]

theorem attemptFilter_none {completed : List String} {a : PyDict}
    (h : a.lookup "attempt-id" = none) :
    attemptFilter completed a = false := by
  unfold attemptFilter
  rw [h]

/-! ### Claim theorems -/

/-- C1: For every argument specification whose length keeps `chr(97 + i)`
inside the domain of Python's `chr`, `list_to_map` assigns exactly n distinct
keys in the fixed deterministic order "a", "b", "c", … (one key per argument
type, in order), and `normalize_args` applied to any reordering of the
key-to-value map built over those keys with values v1 … vn yields
[v1, …, vn], the original declared order. -/
theorem list_to_map_normalize_args_roundtrip
    (input_list : List String) (hn : input_list.length + 97 ≤ 1114112)
    {V : Type} (vs : List V) (hvs : vs.length = input_list.length)
    (m : List (PyStr × V))
    (hperm : m.Perm ((argKeys input_list.length).zip vs)) :
    ((list_to_map input_list).map Prod.fst = argKeys input_list.length
      ∧ (list_to_map input_list).length = input_list.length
      ∧ (argKeys input_list.length).Nodup
      ∧ (argKeys input_list.length).Pairwise fun a b => pyStrLt a b = true)
    ∧ normalize_args m = vs := by
  constructor
  · refine ⟨?_, ?_, argKeys_nodup _, argKeys_pairwise_lt _⟩
    · exact List.map_fst_zip _ _ (by simp [argKeys_length])
    · simp [list_to_map, argKeys_length]
  · refine normalize_args_perm_zip vs m ?_
    rw [hvs]
    exact hperm

/-- C1 witness: the spec's example — argument spec [int, int], the model
sends the mapping b ↦ 3, a ↦ 5 (in that insertion order), the oracle
receives the positional vector [5, 3]. -/
theorem list_to_map_normalize_args_roundtrip_witness :
    (["int", "int"] : List String).length + 97 ≤ 1114112
    ∧ ([([98], (3 : Int)), ([97], 5)] : List (PyStr × Int)).Perm
        ((argKeys (["int", "int"] : List String).length).zip [5, 3])
    ∧ normalize_args [([98], (3 : Int)), ([97], 5)] = [5, 3] :=
  ⟨by norm_num, by decide,
   (@list_to_map_normalize_args_roundtrip ["int", "int"] (by norm_num)
      Int [5, 3] rfl [([98], 3), ([97], 5)] (by decide)).2⟩

/-- C2: for a completion turn carrying tool invocations T1 … Tk, the
investigation loop's per-turn processing issues exactly k oracle
`test-function` calls, one per invocation in the model's order, each carrying
the positional vector `normalize_args` recovers by sorting the invocation's
argument keys; it appends exactly one tool-result block per invocation whose
`tool_use_id` equals that invocation's identifier, and the tool-call counter
increases by exactly k. -/
theorem investigation_tool_turn_behavior
    (postfn : String → List JVal → List (String × JVal)) (attempt_id : String)
    (tool_calls : List ToolCall) (counter : Nat) :
    processToolCalls postfn attempt_id tool_calls counter =
      (tool_calls.map fun call =>
         Block.toolResultBlock call.id (fnoutputFor postfn attempt_id call),
       counter + tool_calls.length,
       tool_calls.map fun call =>
         Event.oracleTest attempt_id (normalize_args call.input)) :=
  processToolCalls_eq postfn attempt_id tool_calls counter

/-- C3: on the first turn whose normalized completion contains zero tool
invocations, the investigation loop appends the composed assistant message
(reasoning, redacted marker and text only), returns the transcript together
with the current tool-call counter, and issues no further model call after
that turn (the trace of the remaining run is exactly one completion
request). -/
theorem investigation_stops_on_no_tool_turn
    (completionfn : List Message → List ToolSchema → List Block)
    (postfn : String → List JVal → List (String × JVal))
    (attempt_id : String) (tools : List ToolSchema) (fuel : Nat)
    (messages : List Message) (counter : Nat)
    (h : (parse_completion (completionfn messages tools)).2.2.2 = []) :
    investigateLoop completionfn postfn attempt_id tools (fuel + 1)
        messages counter =
      (Except.ok (messages ++
          [⟨"assistant",
            assistantContent (parse_completion (completionfn messages tools)).1
              (parse_completion (completionfn messages tools)).2.1
              (parse_completion (completionfn messages tools)).2.2.1⟩],
         counter),
       [Event.modelCall]) :=
  investigateLoop_no_tool_step completionfn postfn attempt_id tools fuel
    messages counter h

/-- C3 witness: a model that returns an empty completion (no tool use) makes
the loop return at once, with the empty-content assistant message appended
and exactly one model call issued. -/
theorem investigation_stops_on_no_tool_turn_witness :
    (parse_completion (([] : List Block))).2.2.2 = []
    ∧ investigateLoop (fun _ _ => []) (fun _ _ => []) "attempt-1" [] 1 [] 0 =
        (Except.ok ([⟨"assistant", []⟩], 0), [Event.modelCall]) :=
  ⟨rfl,
   investigation_stops_on_no_tool_turn (fun _ _ => []) (fun _ _ => [])
     "attempt-1" [] 0 [] 0 rfl⟩

/-- C4: for every msg-limit N, if every model turn contains at least one tool
invocation, `investigate` raises the message-limit failure after exactly N
turns: it issues exactly N model calls and never returns a transcript. -/
theorem investigation_msg_limit_exhaustion
    (completionfn : List Message → List ToolSchema → List Block)
    (postfn : String → List JVal → List (String × JVal))
    (attempt_id : String) (arg_spec : List String)
    (h : ∀ messages, (parse_completion
      (completionfn messages (mysteryTools arg_spec))).2.2.2 ≠ [])
    (msg_limit : Nat) (messages : List Message) :
    (investigate msg_limit completionfn postfn attempt_id arg_spec
        messages).1 = Except.error ()
    ∧ modelCallCount (investigate msg_limit completionfn postfn attempt_id
        arg_spec messages).2 = msg_limit := by
  unfold investigate
  exact investigateLoop_all_tools completionfn postfn attempt_id
    (mysteryTools arg_spec) h msg_limit messages 0

/-- C4 witness: with msg-limit 2 and a model that always invokes its tool,
the loop errors out after exactly 2 model calls. -/
theorem investigation_msg_limit_exhaustion_witness :
    (parse_completion [Block.toolUseBlock ⟨"t1", []⟩]).2.2.2 ≠ []
    ∧ (investigate 2 (fun _ _ => [Block.toolUseBlock ⟨"t1", []⟩])
        (fun _ _ => []) "attempt-1" [] []).1 = Except.error ()
    ∧ modelCallCount (investigate 2 (fun _ _ => [Block.toolUseBlock ⟨"t1", []⟩])
        (fun _ _ => []) "attempt-1" [] []).2 = 2 := by
  have hforall : ∀ messages : List Message, (parse_completion
      ((fun (_ : List Message) (_ : List ToolSchema) =>
        [Block.toolUseBlock ⟨"t1", []⟩]) messages (mysteryTools []))).2.2.2 ≠ [] := by
    intro messages
    show (parse_completion [Block.toolUseBlock ⟨"t1", []⟩]).2.2.2 ≠ []
    decide
  have h := investigation_msg_limit_exhaustion
    (fun _ _ => [Block.toolUseBlock ⟨"t1", []⟩]) (fun _ _ => [])
    "attempt-1" [] hforall 2 []
  exact ⟨by decide, h.1, h.2⟩

/-- C5: after any prefix of verification cases whose verdicts are neither
(substrings of) "wrong" nor (substrings of) "done", a verdict in "wrong"
makes the verification loop return failure immediately — exactly one more
prediction is submitted and later cases are never consulted — while a
verdict in "done" makes it stop with success after the current case. -/
theorem verification_verdict_protocol
    (parse : PyStr → Option (JVal × JVal)) (completions : Nat → PyStr)
    (pre : List VCase) (vcase : VCase) (rest : List VCase) (i : Nat)
    (hpre : ∀ p ∈ pre, pyIn p.status wrongCodes = false ∧
      pyIn p.status doneCodes = false) :
    (pyIn vcase.status wrongCodes = true →
      (verify parse completions (pre ++ vcase :: rest) i).1 = false ∧
      (verify parse completions (pre ++ vcase :: rest) i).2.length =
        pre.length + 1) ∧
    (pyIn vcase.status wrongCodes = false →
      pyIn vcase.status doneCodes = true →
      (verify parse completions (pre ++ vcase :: rest) i).1 = true ∧
      (verify parse completions (pre ++ vcase :: rest) i).2.length =
        pre.length + 1) := by
  obtain ⟨j, h1, h2⟩ :=
    verify_skip_prefix parse completions pre hpre (vcase :: rest) i
  constructor
  · intro hw
    rw [verify_cons_wrong parse completions vcase rest j hw] at h1 h2
    exact ⟨h1, by simpa using h2⟩
  · intro hw hd
    rw [verify_cons_done parse completions vcase rest j hw hd] at h1 h2
    exact ⟨h1, by simpa using h2⟩

/-- C5 witness: the spec's example — verdict sequence
[correct, correct, done] yields success after exactly 3 submitted
predictions. -/
theorem verification_verdict_protocol_witness :
    (verify (fun _ => none) (fun _ => [])
      [⟨[], "int", correctCodes⟩, ⟨[], "int", correctCodes⟩,
       ⟨[], "int", doneCodes⟩] 0).1 = true
    ∧ (verify (fun _ => none) (fun _ => [])
      [⟨[], "int", correctCodes⟩, ⟨[], "int", correctCodes⟩,
       ⟨[], "int", doneCodes⟩] 0).2.length = 3 := by
  have h := (verification_verdict_protocol (fun _ => none) (fun _ => [])
    [⟨[], "int", correctCodes⟩, ⟨[], "int", correctCodes⟩]
    ⟨[], "int", doneCodes⟩ [] 0 (by decide)).2 (by decide) (by decide)
  exact ⟨h.1, h.2⟩

/-- C6: if parsing the model's structured verification response fails on all
3 attempts, the retry loop terminates without raising, returning the initial
empty thoughts/expected_output values after consuming exactly 3 completions,
and the verification loop still submits that (empty) prediction. -/
theorem verification_parse_retry_exhaustion
    (parse : PyStr → Option (JVal × JVal)) (completions : Nat → PyStr)
    (i : Nat) (vcase : VCase)
    (h0 : parse (cleanResponse (completions i)) = none)
    (h1 : parse (cleanResponse (completions (i + 1))) = none)
    (h2 : parse (cleanResponse (completions (i + 2))) = none) :
    parseLoop parse completions 3 i = ((emptyJStr, emptyJStr), i + 3)
    ∧ (verify parse completions [vcase] i).2 = [emptyJStr] := by
  have hp : parseLoop parse completions 3 i = ((emptyJStr, emptyJStr), i + 3) := by
    rw [parseLoop_succ_none parse completions 2 i h0,
      parseLoop_succ_none parse completions 1 (i + 1) h1,
      parseLoop_succ_none parse completions 0 (i + 2) h2]
    rfl
  refine ⟨hp, ?_⟩
  by_cases hw : pyIn vcase.status wrongCodes = true
  · rw [verify_cons_wrong parse completions vcase [] i hw, hp]
  · have hw' : pyIn vcase.status wrongCodes = false :=
      Bool.not_eq_true _ ▸ hw
    by_cases hd : pyIn vcase.status doneCodes = true
    · rw [verify_cons_done parse completions vcase [] i hw' hd, hp]
    · have hd' : pyIn vcase.status doneCodes = false :=
        Bool.not_eq_true _ ▸ hd
      rw [verify_cons_continue parse completions vcase [] i hw' hd', hp]
      rfl

/-- C6 witness: a parser that always fails and a model that always answers
with empty text: the retry loop returns empty values after 3 attempts and the
single-case verification still submits the empty prediction. -/
theorem verification_parse_retry_exhaustion_witness :
    parseLoop (fun _ => none) (fun _ => []) 3 0 = ((emptyJStr, emptyJStr), 3)
    ∧ (verify (fun _ => none) (fun _ => []) [⟨[], "int", wrongCodes⟩] 0).2 =
        [emptyJStr] :=
  verification_parse_retry_exhaustion (fun _ => none) (fun _ => [])
    0 ⟨[], "int", wrongCodes⟩ rfl rfl rfl

/-- C7 counterexample: the claim "for every response text r, r wrapped in a
fenced code block parses identically to r unwrapped" is false: for
r = "\x7b\x7d```" (a text that itself ends in a closing fence), the unwrapped
cleaning strips the trailing fence (leaving "\x7b\x7d") while the wrapped
cleaning leaves "\x7b\x7d```", so a whitespace-insensitive parser
distinguishes the two. -/
theorem fenced_parse_equivalence_counterexample :
    ¬ ∀ (r : PyStr) (parse : PyStr → Option (JVal × JVal)),
        (∀ s, parse (pyStrip s) = parse s) →
        parse (cleanResponse (pyWrap r)) = parse (cleanResponse r) := by
  intro hclaim
  have h := hclaim [123, 125, 96, 96, 96] demoParse
    (fun s => by simp only [demoParse, pyStrip_idem])
  exact absurd h (by decide)

/-- C7 (amended): for every response text r that does not itself begin with
the opening fence marker nor end with the closing fence marker (after
stripping), and for every parser insensitive to surrounding whitespace
(as `json.loads` is), parsing r wrapped in a fenced code block yields the
same result as parsing r unwrapped. -/
theorem fenced_parse_equivalence (r : PyStr)
    (parse : PyStr → Option (JVal × JVal))
    (hparse : ∀ s, parse (pyStrip s) = parse s)
    (h1 : pyStartsWith (pyStrip r) fenceJson = false)
    (h2 : pyEndsWith (pyStrip r) fenceEnd = false) :
    parse (cleanResponse (pyWrap r)) = parse (cleanResponse r) := by
  rw [cleanResponse_pyWrap, cleanResponse_no_fence h1 h2, hparse]

/-- C7 witness: the response "\x7b\x7d" parses identically wrapped and
unwrapped under the sample whitespace-insensitive parser. -/
theorem fenced_parse_equivalence_witness :
    pyStartsWith (pyStrip [123, 125]) fenceJson = false
    ∧ pyEndsWith (pyStrip [123, 125]) fenceEnd = false
    ∧ demoParse (cleanResponse (pyWrap [123, 125])) =
        demoParse (cleanResponse [123, 125]) :=
  ⟨by decide, by decide,
   fenced_parse_equivalence [123, 125] demoParse
     (fun s => by simp only [demoParse, pyStrip_idem]) (by decide) (by decide)⟩

/-- C8: when the oracle's reply to a `test-function` call lacks the "output"
key, `handle_tool_call` does not raise: it substitutes the sentinel
"Error calling tool" as the function output and still produces the
tool-result block for the invocation. -/
theorem handle_tool_call_missing_output
    (postfn : String → List JVal → List (String × JVal)) (attempt_id : String)
    (call : ToolCall)
    (h : (postfn attempt_id (normalize_args call.input)).lookup "output"
      = none) :
    handle_tool_call postfn attempt_id call =
      (Block.toolResultBlock call.id errorSentinel,
       Event.oracleTest attempt_id (normalize_args call.input))
    ∧ errorSentinel = JVal.s "Error calling tool" := by
  refine ⟨?_, rfl⟩
  simp [handle_tool_call, h]

/-- C8 witness: an oracle that replies with an empty mapping. -/
theorem handle_tool_call_missing_output_witness :
    ((fun (_ : String) (_ : List JVal) => ([] : List (String × JVal)))
        "attempt-1" (normalize_args [([97], JVal.n 5)])).lookup "output" = none
    ∧ handle_tool_call (fun _ _ => []) "attempt-1"
        ⟨"toolu-1", [([97], JVal.n 5)]⟩ =
        (Block.toolResultBlock "toolu-1" errorSentinel,
         Event.oracleTest "attempt-1" [JVal.n 5]) :=
  ⟨rfl,
   (handle_tool_call_missing_output (fun _ _ => []) "attempt-1"
     ⟨"toolu-1", [([97], JVal.n 5)]⟩ rfl).1⟩

/-- C9: on resume, the rebuilt attempt list contains exactly the snapshot
attempts whose identifiers are not among the completed attempts; with mode
`skip` the previously in-flight attempt is additionally excluded; with mode
`retry` it is included only when the reset-attempt call succeeded — a failed
reset exits with code 1 instead of resuming. -/
theorem resume_rebuild_modes (fa : PyDict) (faid : String)
    (hfa : fa.lookup "attempt-id" = some faid) (hid : faid ≠ "")
    (all_attempts : List PyDict) (completed : List String)
    (hall : all_attempts ≠ []) :
    (resume_rebuild ResumeMode.retry (some fa) true all_attempts completed =
        Except.ok (rebuildAttempts all_attempts completed)
      ∧ ∀ a, a ∈ rebuildAttempts all_attempts completed ↔
          (a ∈ all_attempts ∧ ∃ id, a.lookup "attempt-id" = some id ∧
            id ∉ completed))
    ∧ resume_rebuild ResumeMode.retry (some fa) false all_attempts completed =
        Except.error 1
    ∧ ∀ rs, resume_rebuild ResumeMode.skip (some fa) rs all_attempts
          completed =
          Except.ok (skipFilter fa (rebuildAttempts all_attempts completed))
      ∧ ∀ a, a ∈ skipFilter fa (rebuildAttempts all_attempts completed) ↔
          (a ∈ all_attempts ∧ ∃ id, a.lookup "attempt-id" = some id ∧
            id ∉ completed ∧ id ≠ faid) := by
  have hfane : fa ≠ [] := by
    intro hcon
    rw [hcon] at hfa
    simp [List.lookup] at hfa
  have htd : truthyDictOpt (some fa) = true := by
    cases fa with
    | nil => exact absurd rfl hfane
    | cons p rest => rfl
  have hts : truthyStrOpt (fa.lookup "attempt-id") = true := by
    rw [hfa]
    show (!faid.isEmpty) = true
    cases hie : faid.isEmpty with
    | false => rfl
    | true => exact absurd ((String.isEmpty_iff faid).1 hie) hid
  have hallE : all_attempts.isEmpty = false := by
    cases all_attempts with
    | nil => exact absurd rfl hall
    | cons x xs => rfl
  have hmem : ∀ a, a ∈ rebuildAttempts all_attempts completed ↔
      (a ∈ all_attempts ∧ ∃ id, a.lookup "attempt-id" = some id ∧
        id ∉ completed) := by
    intro a
    rw [rebuildAttempts, List.mem_filter]
    constructor
    · rintro ⟨ha, hf⟩
      refine ⟨ha, ?_⟩
      cases hlk : a.lookup "attempt-id" with
      | none =>
        rw [attemptFilter_none hlk] at hf
        exact absurd hf (by simp)
      | some id =>
        rw [attemptFilter_some hlk] at hf
        refine ⟨id, rfl, ?_⟩
        intro hmemc
        have hc : completed.contains id = true := by simpa using hmemc
        rw [hc] at hf
        exact absurd hf (by simp)
    · rintro ⟨ha, id, hlk, hnc⟩
      refine ⟨ha, ?_⟩
      rw [attemptFilter_some hlk]
      have hc : completed.contains id = false := by simpa using hnc
      rw [hc]
      rfl
  have hmem2 : ∀ a, a ∈ skipFilter fa (rebuildAttempts all_attempts completed) ↔
      (a ∈ all_attempts ∧ ∃ id, a.lookup "attempt-id" = some id ∧
        id ∉ completed ∧ id ≠ faid) := by
    intro a
    rw [skipFilter, List.mem_filter]
    constructor
    · rintro ⟨hbase, hneq⟩
      obtain ⟨ha, id, hlk, hnc⟩ := (hmem a).1 hbase
      refine ⟨ha, id, hlk, hnc, ?_⟩
      rw [hlk, hfa] at hneq
      simp only [Bool.not_eq_true', beq_eq_false_iff_ne, ne_eq] at hneq
      intro hcon
      exact hneq (by rw [hcon])
    · rintro ⟨ha, id, hlk, hnc, hne⟩
      refine ⟨(hmem a).2 ⟨ha, id, hlk, hnc⟩, ?_⟩
      rw [hlk, hfa]
      simp only [Bool.not_eq_true', beq_eq_false_iff_ne, ne_eq]
      intro hcon
      exact hne (Option.some.inj hcon)
  refine ⟨⟨?_, hmem⟩, ?_, fun rs => ⟨?_, hmem2⟩⟩
  · simp [resume_rebuild, htd, hts, hallE]
  · simp [resume_rebuild, htd, hts]
  · simp [resume_rebuild, htd, hallE]

/-- C9 witness: a three-attempt snapshot with one completed attempt ("c1")
and in-flight attempt "f1": a failed reset under `retry` exits with code 1, a
successful reset keeps "f1" in the rebuilt list, and `skip` drops it. -/
theorem resume_rebuild_modes_witness :
    ([("attempt-id", "f1")] : PyDict).lookup "attempt-id" = some "f1"
    ∧ resume_rebuild ResumeMode.retry (some [("attempt-id", "f1")]) false
        [[("attempt-id", "a1")], [("attempt-id", "f1")], [("attempt-id", "c1")]]
        ["c1"] = Except.error 1
    ∧ resume_rebuild ResumeMode.retry (some [("attempt-id", "f1")]) true
        [[("attempt-id", "a1")], [("attempt-id", "f1")], [("attempt-id", "c1")]]
        ["c1"] = Except.ok [[("attempt-id", "a1")], [("attempt-id", "f1")]]
    ∧ resume_rebuild ResumeMode.skip (some [("attempt-id", "f1")]) true
        [[("attempt-id", "a1")], [("attempt-id", "f1")], [("attempt-id", "c1")]]
        ["c1"] = Except.ok [[("attempt-id", "a1")]] := by
  have h := resume_rebuild_modes [("attempt-id", "f1")] "f1" rfl
    (by decide)
    [[("attempt-id", "a1")], [("attempt-id", "f1")], [("attempt-id", "c1")]]
    ["c1"] (by simp)
  refine ⟨rfl, h.2.1, ?_, ?_⟩
  · rw [h.1.1]
    rfl
  · rw [(h.2.2 true).1]
    rfl

/-- C10 counterexample: the claim that the success-terminating done branch is
taken for every status that is a contiguous substring of "done" is false: the
status "on" is a substring of "done", yet the loop returns failure for it,
because "on" is also a substring of "wrong" and the failure check runs
first. -/
theorem verdict_substring_branching_counterexample :
    pyIn [111, 110] doneCodes = true
    ∧ (verify (fun _ => none) (fun _ => [])
        [⟨[], "int", [111, 110]⟩] 0).1 = false := by
  decide

/-- C10 (amended): the verification loop takes the failure branch exactly
when the returned status is a contiguous substring of "wrong" — including the
empty string, "w", "ro" and "on" — not only when it equals "wrong"; the
success-terminating done branch is taken exactly when the status is not a
substring of "wrong" but is a substring of "done"; any other status
continues with the next case.  (Observed against a two-case list whose
second case returns "wrong".) -/
theorem verdict_substring_branching
    (parse : PyStr → Option (JVal × JVal)) (completions : Nat → PyStr)
    (vcase wcase : VCase) (hW : wcase.status = wrongCodes) (i : Nat) :
    (pyIn vcase.status wrongCodes = true →
      verify parse completions [vcase, wcase] i =
        (false, [(parseLoop parse completions 3 i).1.2])) ∧
    (pyIn vcase.status wrongCodes = false →
      pyIn vcase.status doneCodes = true →
      verify parse completions [vcase, wcase] i =
        (true, [(parseLoop parse completions 3 i).1.2])) ∧
    (pyIn vcase.status wrongCodes = false →
      pyIn vcase.status doneCodes = false →
      (verify parse completions [vcase, wcase] i).1 = false ∧
      (verify parse completions [vcase, wcase] i).2.length = 2) ∧
    (pyIn [] wrongCodes = true ∧ pyIn [119] wrongCodes = true ∧
      pyIn [114, 111] wrongCodes = true ∧ pyIn [111, 110] wrongCodes = true ∧
      pyIn [111, 110] doneCodes = true) := by
  refine ⟨?_, ?_, ?_, by decide⟩
  · intro hw
    exact verify_cons_wrong parse completions vcase [wcase] i hw
  · intro hw hd
    exact verify_cons_done parse completions vcase [wcase] i hw hd
  · intro hw hd
    rw [verify_cons_continue parse completions vcase [wcase] i hw hd]
    have hwW : pyIn wcase.status wrongCodes = true := by
      rw [hW]
      decide
    rw [verify_cons_wrong parse completions wcase []
      (parseLoop parse completions 3 i).2 hwW]
    exact ⟨rfl, rfl⟩

/-- C10 witness: the empty status "" — a substring of "wrong" without being
equal to it — takes the failure branch at once. -/
theorem verdict_substring_branching_witness :
    pyIn [] wrongCodes = true
    ∧ verify (fun _ => none) (fun _ => [])
        [⟨[], "int", []⟩, ⟨[], "int", wrongCodes⟩] 0 =
        (false, [emptyJStr]) := by
  refine ⟨by decide, ?_⟩
  have h := (verdict_substring_branching (fun _ => none) (fun _ => [])
    ⟨[], "int", []⟩ ⟨[], "int", wrongCodes⟩ rfl 0).1 (by decide)
  exact h

end Sherlock